import Mathlib

/-!
Verification of the effect-composition core of this fp-ts subset:
the `State` monad, the `TaskEither` async-result monad, and the
`number` ordering instances.

Embedding notes.
`State<S, A>` is a pure function `S → A × S` and is embedded directly.
`TaskEither<E, A>` is `Task<Either<E, A>>`, where `Task<A>` is a deferred
computation (`() => Promise<A>`). The `Task` and `Either` modules are
consumed collaborators whose sources are not part of this file set, so
they are modelled from the specification: a `Task` is represented by its
settled value together with the linearized trace of effect events it
performs while running (a writer monad), which lets theorems express
"this callback was never invoked" (its events are absent from the trace)
and "invoked exactly once" (its events appear exactly once).
-/

namespace FpTs

/-- Modelled from the spec: the tagged-union result type consumed by
`TaskEither` (the `Either` module is not part of this file set). It
exposes success/failure constructors `right`/`left`. -/
inductive Either (E A : Type) : Type where
| left (e : E) : Either E A
| right (a : A) : Either E A
deriving DecidableEq, Repr

namespace Either

/-- Modelled from the spec: fold/pattern-match on the tagged union. -/
def fold {E A C : Type} (onLeft : E → C) (onRight : A → C) : Either E A → C
| .left e => onLeft e
| .right a => onRight a

/-- Modelled from the spec: the is-failure predicate. -/
def isLeft {E A : Type} : Either E A → Bool
| .left _ => true
| .right _ => false

/-- Modelled from the spec: the is-success predicate. -/
def isRight {E A : Type} : Either E A → Bool
| .left _ => false
| .right _ => true

/-- Modelled from the spec: map over the success branch. -/
def map {E A B : Type} (f : A → B) : Either E A → Either E B
| .left e => .left e
| .right a => .right (f a)

/-- Modelled from the spec: map over the failure branch. -/
def mapLeft {E G A : Type} (f : E → G) : Either E A → Either G A
| .left e => .left (f e)
| .right a => .right a

/-- Modelled from the spec: applicative apply on the tagged union; the
result is the first-encountered failure scanning the function side
(`gab`) first and then the argument side (`ga`). -/
def apW {E A B : Type} (ga : Either E A) (gab : Either E (A → B)) : Either E B :=
match gab with
| .left e => .left e
| .right f =>
  match ga with
  | .left e => .left e
  | .right a => .right (f a)

/-- Modelled from the spec: reduce a sequence of results to the first
failure encountered in index order, else the success of all values
preserving input order (`E.sequenceArray`). -/
def sequenceArray {E A : Type} : List (Either E A) → Either E (List A)
| [] => .right []
| .left e :: _ => .left e
| .right a :: rest => (sequenceArray rest).map (fun as => a :: as)

end Either

/-- Modelled from the spec: the deferred-computation primitive underlying
`TaskEither` (the `Task` module is not part of this file set). A task is
represented by the linearized trace of effect events it performs while
running, paired with the value its future settles to. -/
abbrev Task (A : Type) : Type := List Nat × A

namespace Task

/-- Modelled from the spec: construction from an already-available value;
performs no effects. -/
def of {A : Type} (a : A) : Task A := ([], a)

/-- Modelled from the spec: transform the settled value, leaving the
execution untouched. -/
def map {A B : Type} (f : A → B) (t : Task A) : Task B := (t.1, f t.2)

/-- Modelled from the spec: run-after-settlement continuation — run `t`,
then run `f` on its settled value; the traces concatenate in that order. -/
def chain {A B : Type} (f : A → Task B) (t : Task A) : Task B :=
(t.1 ++ (f t.2).1, (f t.2).2)

/-- Modelled from the spec: parallel apply — both tasks run (both traces
appear; the trace linearizes `tfab` before `tfa`), then the settled
function is applied to the settled argument. -/
def ap {A B : Type} (tfa : Task A) (tfab : Task (A → B)) : Task B :=
(tfab.1 ++ tfa.1, tfab.2 tfa.2)

/-- Modelled from the spec: parallel array traversal at the `Task` level —
every element's computation runs (all traces appear, linearized in index
order) and the settled values are collected preserving input order. -/
def traverseArrayWithIndex {A B : Type} (f : Nat → A → Task B) : Nat → List A → Task (List B)
| _, [] => ([], [])
| i, a :: rest =>
  let t := f i a
  let r := traverseArrayWithIndex f (i + 1) rest
  (t.1 ++ r.1, t.2 :: r.2)

end Task

/-- `TaskEither<E, A>` is `Task<Either<E, A>>` (src/src/State.ts line 383). -/
abbrev TaskEither (E A : Type) : Type := Task (Either E A)

namespace TaskEither

/-- `left`: an immediately-settling failure (src/src/State.ts lines 393–395,
`flow(E.left, T.of)`). -/
def left {E A : Type} (e : E) : TaskEither E A := Task.of (Either.left e)

/-- `right`: an immediately-settling success (src/src/State.ts lines 401–403,
`flow(E.right, T.of)`). -/
def right {E A : Type} (a : A) : TaskEither E A := Task.of (Either.right a)

/-- `of = right` (src/src/State.ts line 824). -/
def of {E A : Type} (a : A) : TaskEither E A := right a

/-- `map` (src/src/State.ts line 663): `T.map(E.map(f))`. -/
def map {E A B : Type} (f : A → B) (fa : TaskEither E A) : TaskEither E B :=
Task.map (Either.map f) fa

/-- `chainW` (src/src/State.ts lines 710–711):
`pipe(ma, T.chain(E.fold(left, f)))`. -/
def chainW {E A B : Type} (f : A → TaskEither E B) (ma : TaskEither E A) : TaskEither E B :=
Task.chain (Either.fold left f) ma

/-- `chain = chainW` (src/src/State.ts line 719). -/
def chain {E A B : Type} (f : A → TaskEither E B) (ma : TaskEither E A) : TaskEither E B :=
chainW f ma

/-- `apW` (src/src/State.ts lines 690–694):
`flow(T.map((gab) => (ga) => E.apW(ga)(gab)), T.ap(fa))`. -/
def apW {E A B : Type} (fa : TaskEither E A) (fab : TaskEither E (A → B)) : TaskEither E B :=
Task.ap fa (Task.map (fun gab ga => Either.apW ga gab) fab)

/-- `ap = apW` (src/src/State.ts line 702). -/
def ap {E A B : Type} (fa : TaskEither E A) (fab : TaskEither E (A → B)) : TaskEither E B :=
apW fa fab

/-- The `ApplicativePar` instance record (src/src/State.ts lines 1031–1036):
it bundles `map`, the parallel `ap` and `of`. -/
structure ApplicativeInst : Type 1 where
mapF : {E A B : Type} → (A → B) → TaskEither E A → TaskEither E B
apF : {E A B : Type} → TaskEither E A → TaskEither E (A → B) → TaskEither E B
ofF : {E A : Type} → A → TaskEither E A

/-- `ApplicativePar = { URI, map, ap, of }` (src/src/State.ts lines 1031–1036). -/
def ApplicativePar : ApplicativeInst :=
{ mapF := fun f fa => map f fa, apF := fun fa fab => ap fa fab, ofF := fun a => of a }

/-- `bracket` (src/src/State.ts lines 1191–1209): acquire, then wrap `use`'s
outcome with `T.map(E.right)` so it cannot short-circuit, then run `release`
on the acquired resource and that outcome, then re-deliver `use`'s outcome
unless `release` itself failed. -/
def bracket {E A B : Type} (acquire : TaskEither E A) (use : A → TaskEither E B)
  (release : A → Either E B → TaskEither E Unit) : TaskEither E B :=
chain
  (fun a =>
    chain
      (fun e =>
        chain
          (fun _ => Either.fold (fun el => left el) (fun b => of b) e)
          (release a e))
      (Task.map Either.right (use a)))
  acquire

/-- `traverseArrayWithIndex` for `TaskEither` (src/src/State.ts lines
1312–1315): `pipe(arr, T.traverseArrayWithIndex(f), T.map(E.sequenceArray))`. -/
def traverseArrayWithIndex {E A B : Type} (f : Nat → A → TaskEither E B)
  (arr : List A) : TaskEither E (List B) :=
Task.map Either.sequenceArray (Task.traverseArrayWithIndex f 0 arr)

/-- `traverseArray` (src/src/State.ts lines 1353–1355):
`traverseArrayWithIndex((_, a) => f(a))`. -/
def traverseArray {E A B : Type} (f : A → TaskEither E B) (arr : List A) :
  TaskEither E (List B) :=
traverseArrayWithIndex (fun _ a => f a) arr

/-- `sequenceArray = traverseArray(identity)` (src/src/State.ts lines 1393–1395). -/
def sequenceArray {E A : Type} (arr : List (TaskEither E A)) : TaskEither E (List A) :=
traverseArray (fun t => t) arr

/-- The loop body of `traverseSeqArrayWithIndex` (src/src/State.ts lines
1400–1413), with the running index made explicit: awaits each element's
computation in turn, returns the failure as soon as one settles `Left`
(later elements are never started), else pushes the value and continues. -/
def traverseSeqGo {E A B : Type} (f : Nat → A → TaskEither E B) :
  Nat → List A → TaskEither E (List B)
| _, [] => ([], .right [])
| i, a :: rest =>
  let t := f i a
  match t.2 with
  | .left e => (t.1, .left e)
  | .right b =>
    let r := traverseSeqGo f (i + 1) rest
    (t.1 ++ r.1, Either.map (fun bs => b :: bs) r.2)

/-- `traverseSeqArrayWithIndex` (src/src/State.ts lines 1400–1413): the
sequential-and-bailing traversal, starting the loop at index 0. -/
def traverseSeqArrayWithIndex {E A B : Type} (f : Nat → A → TaskEither E B)
  (arr : List A) : TaskEither E (List B) :=
traverseSeqGo f 0 arr

/-- `traverseSeqArray` (src/src/State.ts lines 1422–1424):
`traverseSeqArrayWithIndex((_, a) => f(a))`. -/
def traverseSeqArray {E A B : Type} (f : A → TaskEither E B) (arr : List A) :
  TaskEither E (List B) :=
traverseSeqArrayWithIndex (fun _ a => f a) arr

/-- `sequenceSeqArray = traverseSeqArray(identity)` (src/src/State.ts lines
1433–1435). -/
def sequenceSeqArray {E A : Type} (arr : List (TaskEither E A)) : TaskEither E (List A) :=
traverseSeqArray (fun t => t) arr

end TaskEither

/-- Modelled from the spec: the settled outcome of the external future
consumed by `tryCatch` — the platform promise either fulfills with a value
or rejects with a reason. -/
inductive PResult (R A : Type) : Type where
| fulfilled (a : A) : PResult R A
| rejected (r : R) : PResult R A
deriving DecidableEq, Repr

/-- `tryCatch` (src/src/State.ts lines 492–494):
`() => f().then(E.right, (reason) => E.left(onRejected(reason)))`.
The lazy external call `f` is modelled as a thunk returning its trace and
its settled promise outcome; `tryCatch` invokes it once, wraps fulfillment
as success and maps rejection through `onRejected` into failure. -/
def tryCatch {R E A : Type} (f : Unit → List Nat × PResult R A)
  (onRejected : R → E) : TaskEither E A :=
((f ()).1,
  match (f ()).2 with
  | .fulfilled a => .right a
  | .rejected r => .left (onRejected r))

/-- `State<S, A>` is a function `S → A × S` (src/src/State.ts lines 18–20). -/
abbrev State (S A : Type) : Type := S → A × S

namespace State

/-- `of` for `State` (src/src/State.ts line 88): `(a) => (s) => [a, s]`. -/
def of {S A : Type} (a : A) : State S A := fun s => (a, s)

/-- `map` for `State` (src/src/State.ts lines 65–68). -/
def map {S A B : Type} (f : A → B) (fa : State S A) : State S B :=
fun s1 =>
  let p := fa s1
  (f p.1, p.2)

/-- `chain` for `State` (src/src/State.ts lines 96–99):
`(f) => (ma) => (s1) => { const [a, s2] = ma(s1); return f(a)(s2) }`. -/
def chain {S A B : Type} (f : A → State S B) (ma : State S A) : State S B :=
fun s1 =>
  let p := ma s1
  f p.1 p.2

/-- `traverseArrayWithIndex` for `State` (src/src/State.ts lines 291–303):
the iterative loop is embedded as a left fold whose accumulator carries the
pushed values, the threaded `lastState` and the running index, exactly the
three mutable variables of the source loop. -/
def traverseArrayWithIndex {S A B : Type} (f : Nat → A → State S B)
  (arr : List A) : State S (List B) :=
fun s =>
  let r := arr.foldl
    (fun (acc : List B × S × Nat) a =>
      let p := f acc.2.2 a acc.2.1
      (acc.1 ++ [p.1], p.2, acc.2.2 + 1))
    ([], s, 0)
  (r.1, r.2.1)

/-- `traverseArray` for `State` (src/src/State.ts lines 320–322):
`traverseArrayWithIndex((_, a) => f(a))`. -/
def traverseArray {S A B : Type} (f : A → State S B) (arr : List A) :
  State S (List B) :=
traverseArrayWithIndex (fun _ a => f a) arr

/-- `sequenceArray = traverseArray(identity)` for `State` (src/src/State.ts
lines 339–341). -/
def sequenceArray {S A : Type} (arr : List (State S A)) : State S (List A) :=
traverseArray (fun t => t) arr

end State

/-- Reference definition following the spec's words: "executes `f` for each
element strictly in index order, threading the state from one invocation to
the next, and collects the produced values preserving input order" — the
naturally recursive traversal, to be compared with the iterative loop. -/
def stateTraverseSpec {S A B : Type} (f : Nat → A → State S B) :
  Nat → List A → State S (List B)
| _, [], s => ([], s)
| i, a :: rest, s =>
  let p := f i a s
  let r := stateTraverseSpec f (i + 1) rest p.2
  (p.1 :: r.1, r.2)

/-- Reference definition following the spec's words: "the state obtained by
manually folding `f` across the sequence in order" — the manual left fold
of the state component alone. -/
def stateFoldSpec {S A B : Type} (f : Nat → A → State S B) :
  Nat → List A → S → S
| _, [], s => s
| i, a :: rest, s => stateFoldSpec f (i + 1) rest (f i a s).2

/-- The value space of the host language's `number` type as far as the
`number` module observes it: the module performs no arithmetic, only the
comparisons `<`, `>` and strict equality, so a double is embedded as
either NaN, an infinity, or an exact finite value. -/
inductive JSNumber : Type where
| nan : JSNumber
| neginf : JSNumber
| posinf : JSNumber
| fin (q : ℚ) : JSNumber
deriving DecidableEq, Repr

namespace JSNumber

/-- The host language's `<` on numbers: NaN compares false against
everything, the infinities bound the finite values, finite values compare
exactly. -/
def lt : JSNumber → JSNumber → Bool
| nan, _ => false
| _, nan => false
| neginf, neginf => false
| neginf, posinf => true
| neginf, fin _ => true
| posinf, _ => false
| fin _, posinf => true
| fin _, neginf => false
| fin x, fin y => decide (x < y)

/-- The host language's `>` on numbers: `x > y` holds exactly when `y < x`. -/
def gt (x y : JSNumber) : Bool := lt y x

/-- The host language's strict equality `===` on numbers: NaN is unequal
to everything, itself included; other values are equal exactly when they
are the same value. -/
def stricteq : JSNumber → JSNumber → Bool
| nan, _ => false
| _, nan => false
| x, y => decide (x = y)

end JSNumber

/-- The shape of an `Eq` instance record as the `number` module produces
it: a binary equality predicate. -/
structure EqInst (A : Type) : Type where
equals : A → A → Bool

/-- The shape of an `Ord` instance record as the `number` module produces
it: the inherited equality plus a three-way comparison. -/
structure OrdInst (A : Type) : Type where
equals : A → A → Bool
compare : A → A → Int

namespace number

/-- The `number` module's `Eq` instance (src/src/number.ts line 11):
`E.eqStrict`. Modelled from the spec: `eqStrict` lives in the `Eq` module,
which is not part of this file set; it is strict equality `===`. -/
def Eq : EqInst JSNumber := { equals := JSNumber.stricteq }

/-- The `number` module's `Ord` instance (src/src/number.ts lines 17–20):
`{ equals: Eq.equals, compare: (x, y) => (x < y ? -1 : x > y ? 1 : 0) }`. -/
def Ord : OrdInst JSNumber :=
{ equals := Eq.equals,
  compare := fun x y => if JSNumber.lt x y then -1 else if JSNumber.gt x y then 1 else 0 }

end number

/-- The closure of `TaskEither` values produced by the module's own
constructors and combinators, as an inductive syntax: each constructor
node records the user-supplied pure callbacks and sub-computations of the
corresponding source export. `tryCatch`'s wrapped external call is the one
node that may carry a platform rejection (its promise outcome is an
`Option`, `none` standing for rejection); user-supplied callbacks are
total functions, which is the spec's precondition that they do not throw. -/
inductive TEExpr (E : Type) : Type → Type 1 where
| left {A : Type} (e : E) : TEExpr E A
| right {A : Type} (a : A) : TEExpr E A
| fromEither {A : Type} (ea : Either E A) : TEExpr E A
| fromOption {A : Type} (onNone : Unit → E) (ma : Option A) : TEExpr E A
| fromPredicate {A : Type} (p : A → Bool) (onFalse : A → E) (a : A) : TEExpr E A
| map {A B : Type} (f : A → B) (ma : TEExpr E A) : TEExpr E B
| mapLeft {A : Type} (f : E → E) (ma : TEExpr E A) : TEExpr E A
| bimap {A B : Type} (f : E → E) (g : A → B) (ma : TEExpr E A) : TEExpr E B
| chain {A B : Type} (f : A → TEExpr E B) (ma : TEExpr E A) : TEExpr E B
| ap {A B : Type} (fa : TEExpr E A) (fab : TEExpr E (A → B)) : TEExpr E B
| alt {A : Type} (second : Unit → TEExpr E A) (first : TEExpr E A) : TEExpr E A
| orElse {A : Type} (onLeft : E → TEExpr E A) (ma : TEExpr E A) : TEExpr E A
| bracket {A B : Type} (acquire : TEExpr E A) (use : A → TEExpr E B)
    (release : A → Either E B → TEExpr E Unit) : TEExpr E B
| tryCatch {A : Type} (thunk : Unit → Option A) (onRejected : Unit → E) : TEExpr E A

namespace TEExpr

/-- Modelled from the spec: the settlement semantics of the future behind
a `TaskEither` value — `some` outcome when the future settles, `none` when
a platform rejection escapes through the machinery. Awaiting a rejected
future re-raises the rejection, so every combinator propagates `none`;
`tryCatch` is the one node that converts its wrapped call's rejection into
the `Failure` variant. -/
def settle {E : Type} : {A : Type} → TEExpr E A → Option (Either E A)
| _, .left e => some (.left e)
| _, .right a => some (.right a)
| _, .fromEither ea => some ea
| _, .fromOption onNone ma =>
  match ma with
  | none => some (.left (onNone ()))
  | some a => some (.right a)
| _, .fromPredicate p onFalse a =>
  some (if p a then .right a else .left (onFalse a))
| _, .map f ma =>
  match settle ma with
  | none => none
  | some (.left e) => some (.left e)
  | some (.right a) => some (.right (f a))
| _, .mapLeft f ma =>
  match settle ma with
  | none => none
  | some (.left e) => some (.left (f e))
  | some (.right a) => some (.right a)
| _, .bimap f g ma =>
  match settle ma with
  | none => none
  | some (.left e) => some (.left (f e))
  | some (.right a) => some (.right (g a))
| _, .chain f ma =>
  match settle ma with
  | none => none
  | some (.left e) => some (.left e)
  | some (.right a) => settle (f a)
| _, .ap fa fab =>
  match settle fab with
  | none => none
  | some gab =>
    match settle fa with
    | none => none
    | some ga => some (Either.apW ga gab)
| _, .alt second first =>
  match settle first with
  | none => none
  | some (.left _) => settle (second ())
  | some (.right a) => some (.right a)
| _, .orElse onLeft ma =>
  match settle ma with
  | none => none
  | some (.left e) => settle (onLeft e)
  | some (.right a) => some (.right a)
| _, .bracket acquire use release =>
  match settle acquire with
  | none => none
  | some (.left e) => some (.left e)
  | some (.right a) =>
    match settle (use a) with
    | none => none
    | some eu =>
      match settle (release a eu) with
      | none => none
      | some (.left er) => some (.left er)
      | some (.right _) => some eu
| _, .tryCatch thunk onRejected =>
  match thunk () with
  | some a => some (.right a)
  | none => some (.left (onRejected ()))

end TEExpr

/-!
Theorems. One theorem per claim, with shared helper lemmas where useful.
-/

/-- C9: the State monad laws hold — `chain(f)(of(a))` run on `s` equals
`f(a)` run on `s` (left identity), `chain(of)(ma)` run on `s` equals
`ma` run on `s` (right identity), and `chain` is associative. -/
theorem state_monad_laws :
  (∀ (S A B : Type) (a : A) (f : A → State S B) (s : S),
    State.chain f (State.of a) s = f a s)
  ∧ (∀ (S A : Type) (ma : State S A) (s : S),
    State.chain State.of ma s = ma s)
  ∧ (∀ (S A B C : Type) (f : A → State S B) (g : B → State S C)
      (ma : State S A) (s : S),
    State.chain g (State.chain f ma) s
      = State.chain (fun x => State.chain g (f x)) ma s) := by
refine ⟨fun S A B a f s => rfl, fun S A ma s => ?_, fun S A B C f g ma s => rfl⟩
simp [State.chain, State.of]

/-- C1: `chain(f)(left(e))` settles to `Failure(e)` with `f` never invoked
(the result is `left e` itself, independent of `f`, and carries none of
`f`'s trace); more generally any first computation settling `Failure(e)`
short-circuits; and when the first computation settles `Success(a)`,
`chain(f)` invokes `f(a)` exactly once (the result's trace is the first
computation's trace followed by exactly one copy of `f(a)`'s trace) and
`f(a)`'s outcome, Success or Failure, is the final outcome. -/
theorem taskEither_chain_short_circuit :
  (∀ (E A B : Type) (e : E) (f : A → TaskEither E B),
    TaskEither.chain f (TaskEither.left e) = TaskEither.left e)
  ∧ (∀ (E A B : Type) (tr : List Nat) (e : E) (f : A → TaskEither E B),
    TaskEither.chain f (tr, Either.left e) = (tr, Either.left e))
  ∧ (∀ (E A B : Type) (tr : List Nat) (a : A) (f : A → TaskEither E B),
    TaskEither.chain f (tr, Either.right a) = (tr ++ (f a).1, (f a).2)) := by
refine ⟨fun E A B e f => ?_, fun E A B tr e f => ?_, fun E A B tr a f => ?_⟩
· simp [TaskEither.chain, TaskEither.chainW, TaskEither.left, Task.chain, Task.of,
    Either.fold]
· simp [TaskEither.chain, TaskEither.chainW, TaskEither.left, Task.chain, Task.of,
    Either.fold]
· simp [TaskEither.chain, TaskEither.chainW, Task.chain, Either.fold]

/-- C6: the parallel apply `ap(fa)(fab)` of `ApplicativePar` runs both
sides (both traces appear, `fab`'s first); when both settle Success the
result is Success of the function applied to the argument; when either
settles Failure the result is the first-encountered Failure scanning
`fab` first and then `fa` — in particular when `fab` fails its Failure
wins no matter how `fa` settles. -/
theorem taskEither_applicativePar_ap_spec :
  (∀ (E A B : Type) (trf : List Nat) (g : A → B) (tra : List Nat) (a : A),
    TaskEither.ApplicativePar.apF (E := E) (tra, Either.right a) (trf, Either.right g)
      = (trf ++ tra, Either.right (g a)))
  ∧ (∀ (E A B : Type) (trf : List Nat) (e : E) (fa : TaskEither E A),
    TaskEither.ApplicativePar.apF (B := B) fa (trf, Either.left e)
      = (trf ++ fa.1, Either.left e))
  ∧ (∀ (E A B : Type) (trf : List Nat) (g : A → B) (tra : List Nat) (e : E),
    TaskEither.ApplicativePar.apF (tra, Either.left e) (trf, Either.right g)
      = (trf ++ tra, Either.left e)) := by
refine ⟨fun E A B trf g tra a => rfl, fun E A B trf e fa => rfl,
  fun E A B trf g tra e => rfl⟩

/-- C8: `tryCatch(f, onRejected)` invokes `f()` once (the result carries
exactly one copy of the wrapped call's trace); a fulfilled future settles
`Success` of its value and a rejected one settles
`Failure(onRejected(reason))`; in particular the spec's two concrete
examples settle `Success(1)` and `Failure('x')`. -/
theorem tryCatch_boundary :
  (∀ (R E A : Type) (tr : List Nat) (a : A) (onRejected : R → E),
    tryCatch (fun _ => (tr, PResult.fulfilled a)) onRejected = (tr, Either.right a))
  ∧ (∀ (R E A : Type) (tr : List Nat) (r : R) (onRejected : R → E),
    tryCatch (A := A) (fun _ => (tr, PResult.rejected r)) onRejected
      = (tr, Either.left (onRejected r)))
  ∧ tryCatch (fun _ => (([] : List Nat), PResult.fulfilled (1 : Nat)))
      (fun (r : String) => r) = ([], Either.right 1)
  ∧ tryCatch (A := Nat) (fun _ => (([] : List Nat), PResult.rejected "x"))
      (fun (r : String) => r) = ([], Either.left "x") := by
exact ⟨fun R E A tr a onRejected => rfl, fun R E A tr r onRejected => rfl, rfl, rfl⟩

/-- C2: for `bracket(acquire, use, release)` — when `acquire` settles
`Failure(e)` the result is that Failure and `release` (and `use`) never
run (their traces are absent); when `acquire` settles `Success(a)`,
`release(a, outcome)` runs exactly once (its trace appears exactly once,
after `use`'s, whatever `use`'s outcome is) and the final result is
`use`'s outcome unless `release` itself settles Failure, in which case
`release`'s Failure is the final result. -/
theorem taskEither_bracket_spec :
  (∀ (E A B : Type) (tr : List Nat) (e : E) (use : A → TaskEither E B)
      (release : A → Either E B → TaskEither E Unit),
    TaskEither.bracket (tr, Either.left e) use release = (tr, Either.left e))
  ∧ (∀ (E A B : Type) (tr : List Nat) (a : A) (use : A → TaskEither E B)
      (release : A → Either E B → TaskEither E Unit),
    TaskEither.bracket (tr, Either.right a) use release
      = (tr ++ (use a).1 ++ (release a (use a).2).1,
         Either.fold (fun er => Either.left er) (fun _ => (use a).2)
           (release a (use a).2).2)) := by
constructor
· intro E A B tr e use release
  simp [TaskEither.bracket, TaskEither.chain, TaskEither.chainW, Task.chain,
    Either.fold, TaskEither.left, Task.of]
· intro E A B tr a use release
  rcases h1 : use a with ⟨tru, eu⟩
  rcases h2 : release a eu with ⟨trr, er⟩
  cases eu <;> cases er <;>
    simp [TaskEither.bracket, TaskEither.chain, TaskEither.chainW, Task.chain,
      Task.map, Either.fold, h1, h2, TaskEither.left, TaskEither.of,
      TaskEither.right, Task.of]

/-- The loop of `State.traverseArrayWithIndex`, started from an arbitrary
accumulator `(vs, s, i)`, produces the already-pushed values followed by
the recursive reference traversal from index `i`, its threaded state, and
the index advanced by the number of consumed elements. -/
theorem state_traverse_loop {S A B : Type} (f : Nat → A → State S B)
  (arr : List A) :
  ∀ (vs : List B) (s : S) (i : Nat),
    arr.foldl
      (fun (acc : List B × S × Nat) a =>
        let p := f acc.2.2 a acc.2.1
        (acc.1 ++ [p.1], p.2, acc.2.2 + 1))
      (vs, s, i)
    = (vs ++ (stateTraverseSpec f i arr s).1,
       (stateTraverseSpec f i arr s).2, i + arr.length) := by
induction arr with
| nil => intro vs s i; simp [stateTraverseSpec]
| cons a rest ih =>
  intro vs s i
  simp only [List.foldl_cons]
  rw [ih]
  simp [stateTraverseSpec, Nat.add_comm, Nat.add_assoc, Nat.add_left_comm]

/-- The recursive reference traversal threads its final state exactly as
the manual left fold of the state component does. -/
theorem stateTraverseSpec_snd {S A B : Type} (f : Nat → A → State S B)
  (arr : List A) :
  ∀ (i : Nat) (s : S),
    (stateTraverseSpec f i arr s).2 = stateFoldSpec f i arr s := by
induction arr with
| nil => intro i s; rfl
| cons a rest ih => intro i s; simp [stateTraverseSpec, stateFoldSpec, ih]

/-- The recursive reference traversal produces one value per input
element. -/
theorem stateTraverseSpec_length {S A B : Type} (f : Nat → A → State S B)
  (arr : List A) :
  ∀ (i : Nat) (s : S),
    (stateTraverseSpec f i arr s).1.length = arr.length := by
induction arr with
| nil => intro i s; rfl
| cons a rest ih => intro i s; simp [stateTraverseSpec, ih]

/-- C5: running `traverseArrayWithIndex(f)` on any sequence and initial
state agrees with the naturally recursive reference traversal — `f` is
executed for each element strictly in index order with the state threaded
from each invocation to the next — so the final state equals the manual
left fold of `f` across the sequence (likewise for `traverseArray` and
`sequenceArray` built on it) and the produced value sequence has one value
per input element, preserving input order; the iterative loop embedding (a
left fold over the array, mirroring the source's `for` loop) is proved
equal to the recursion. -/
theorem state_traverseArrayWithIndex_spec :
  (∀ (S A B : Type) (f : Nat → A → State S B) (arr : List A) (s : S),
    State.traverseArrayWithIndex f arr s = stateTraverseSpec f 0 arr s)
  ∧ (∀ (S A B : Type) (f : Nat → A → State S B) (arr : List A) (s : S),
    (State.traverseArrayWithIndex f arr s).2 = stateFoldSpec f 0 arr s)
  ∧ (∀ (S A B : Type) (g : A → State S B) (arr : List A) (s : S),
    (State.traverseArray g arr s).2 = stateFoldSpec (fun _ a => g a) 0 arr s)
  ∧ (∀ (S A : Type) (arr : List (State S A)) (s : S),
    (State.sequenceArray arr s).2 = stateFoldSpec (fun _ t => t) 0 arr s)
  ∧ (∀ (S A B : Type) (f : Nat → A → State S B) (arr : List A) (s : S),
    (State.traverseArrayWithIndex f arr s).1.length = arr.length) := by
have key : ∀ (S A B : Type) (f : Nat → A → State S B) (arr : List A) (s : S),
    State.traverseArrayWithIndex f arr s = stateTraverseSpec f 0 arr s := by
  intro S A B f arr s
  simp [State.traverseArrayWithIndex, state_traverse_loop f arr [] s 0]
refine ⟨key, ?_, ?_, ?_, ?_⟩
· intro S A B f arr s
  rw [key, stateTraverseSpec_snd]
· intro S A B g arr s
  rw [State.traverseArray, key, stateTraverseSpec_snd]
· intro S A arr s
  rw [State.sequenceArray, State.traverseArray, key, stateTraverseSpec_snd]
· intro S A B f arr s
  rw [key, stateTraverseSpec_length]

/-- The `Task`-level parallel traversal with an index-blind element
function: every element's task runs (all traces appear, linearized in
index order) and the settled values are collected in input order. -/
theorem task_traverse_ignore_index {A C : Type} (g : A → Task C) :
  ∀ (i : Nat) (arr : List A),
    Task.traverseArrayWithIndex (fun _ a => g a) i arr
      = ((arr.map fun a => (g a).1).flatten, arr.map fun a => (g a).2) := by
intro i arr
induction arr generalizing i with
| nil => rfl
| cons a rest ih => simp [Task.traverseArrayWithIndex, ih]

/-- Reducing a sequence of results that are all successes yields the
success of all the values in order. -/
theorem either_sequenceArray_all_right {E A : Type} :
  ∀ (vals : List A),
    Either.sequenceArray (E := E) (vals.map Either.right) = Either.right vals := by
intro vals
induction vals with
| nil => rfl
| cons v rest ih => simp [Either.sequenceArray, ih, Either.map]

/-- Reducing a sequence of results whose prefix is all successes and whose
next element is a failure yields that first failure, whatever follows. -/
theorem either_sequenceArray_first_left {E A : Type} (e : E)
  (rest : List (Either E A)) :
  ∀ (l : List (Either E A)), (∀ x ∈ l, x.isRight = true) →
    Either.sequenceArray (l ++ Either.left e :: rest) = Either.left e := by
intro l
induction l with
| nil => intro _; rfl
| cons x xs ih =>
  intro h
  rcases x with e' | a
  · exact absurd (h (Either.left e') (List.mem_cons_self _ _)) (by simp [Either.isLeft, Either.isRight])
  · have hxs : ∀ x ∈ xs, x.isRight = true := fun x hx => h x (List.mem_cons_of_mem _ hx)
    simp [Either.sequenceArray, ih hxs, Either.map]

/-- C3: the parallel traversal `traverseArray` (and `sequenceArray`, its
identity instance) does not bail out on failure — every element's
computation runs, its trace appearing in index order whatever the
outcomes are — and the settled result is Success of all element values in
input order when every element succeeds, and the first Failure in index
order when some element fails (elements after the failing one still
having run). -/
theorem taskEither_traverseArray_spec :
  (∀ (E A B : Type) (f : A → TaskEither E B) (arr : List A),
    (TaskEither.traverseArray f arr).1 = (arr.map fun a => (f a).1).flatten)
  ∧ (∀ (E A B : Type) (f : A → TaskEither E B) (arr : List A) (vals : List B),
    arr.map (fun a => (f a).2) = vals.map Either.right →
    (TaskEither.traverseArray f arr).2 = Either.right vals)
  ∧ (∀ (E A B : Type) (f : A → TaskEither E B) (xs : List A) (y : A)
      (zs : List A) (e : E),
    (∀ x ∈ xs, ((f x).2).isRight = true) →
    (f y).2 = Either.left e →
    (TaskEither.traverseArray f (xs ++ y :: zs)).2 = Either.left e) := by
refine ⟨?_, ?_, ?_⟩
· intro E A B f arr
  simp [TaskEither.traverseArray, TaskEither.traverseArrayWithIndex, Task.map,
    task_traverse_ignore_index]
· intro E A B f arr vals h
  simp [TaskEither.traverseArray, TaskEither.traverseArrayWithIndex, Task.map,
    task_traverse_ignore_index, h, either_sequenceArray_all_right]
· intro E A B f xs y zs e hxs hy
  have hmap : ∀ x ∈ xs.map (fun a => (f a).2), x.isRight = true := by
    intro x hx
    rcases List.mem_map.1 hx with ⟨a, ha, rfl⟩
    exact hxs a ha
  simp [TaskEither.traverseArray, TaskEither.traverseArrayWithIndex, Task.map,
    task_traverse_ignore_index, hy,
    either_sequenceArray_first_left e (zs.map fun a => (f a).2) _ hmap]

/-- A closed instance of C3's theorem: a two-success array settles to the
success of both values in order, and an array whose second and third
elements fail settles to the second element's failure. -/
theorem taskEither_traverseArray_spec_witness :
  (TaskEither.traverseArray (E := Nat) (B := Nat) (fun t => t)
    [(([0] : List Nat), Either.right (1 : Nat)), ([1], Either.right 2)]).2
      = Either.right ([1, 2] : List Nat)
  ∧ (TaskEither.traverseArray (E := Nat) (B := Nat) (fun t => t)
    [(([0] : List Nat), Either.right (1 : Nat)), ([1], Either.left (5 : Nat)),
      ([2], Either.left 6)]).2 = Either.left 5 :=
⟨taskEither_traverseArray_spec.2.1 Nat (TaskEither Nat Nat) Nat (fun t => t)
    [([0], Either.right 1), ([1], Either.right 2)] [1, 2] rfl,
  taskEither_traverseArray_spec.2.2 Nat (TaskEither Nat Nat) Nat (fun t => t)
    [([0], Either.right 1)] ([1], Either.left 5) [([2], Either.left 6)] 5
    (by decide) rfl⟩

/-- The loop of the sequential traversal, with an index-blind element
function: when every element of the prefix `xs` settles Success and the
next element `y` settles `Failure(e)`, the loop stops at `y` — its result
is that failure, its trace is the prefix's traces followed by `y`'s, and
nothing of `zs` runs, whatever the starting index. -/
theorem traverseSeqGo_bail {E A B : Type} (f : A → TaskEither E B) (y : A)
  (zs : List A) (e : E) (hy : (f y).2 = Either.left e) :
  ∀ (xs : List A) (i : Nat), (∀ x ∈ xs, ((f x).2).isRight = true) →
    TaskEither.traverseSeqGo (fun _ a => f a) i (xs ++ y :: zs)
      = ((xs.map fun x => (f x).1).flatten ++ (f y).1, Either.left e) := by
intro xs
induction xs with
| nil => intro i _; simp [TaskEither.traverseSeqGo, hy]
| cons x xs' ih =>
  intro i h
  have hx := h x (List.mem_cons_self _ _)
  rcases hfx : (f x).2 with e' | b
  · rw [hfx] at hx; simp [Either.isRight] at hx
  · have hxs' : ∀ x ∈ xs', ((f x).2).isRight = true :=
      fun x hxm => h x (List.mem_cons_of_mem _ hxm)
    simp [TaskEither.traverseSeqGo, hfx, ih (i + 1) hxs', Either.map]

/-- The loop of the sequential traversal, all-success case: each element
runs in turn (traces in index order) and the values are collected in
order, whatever the starting index. -/
theorem traverseSeqGo_all_right {E A B : Type} (f : A → TaskEither E B) :
  ∀ (arr : List A) (vals : List B) (i : Nat),
    arr.map (fun a => (f a).2) = vals.map Either.right →
    TaskEither.traverseSeqGo (fun _ a => f a) i arr
      = ((arr.map fun a => (f a).1).flatten, Either.right vals) := by
intro arr
induction arr with
| nil =>
  intro vals i h
  rcases vals with _ | ⟨v, vs⟩
  · rfl
  · simp at h
| cons a rest ih =>
  intro vals i h
  rcases vals with _ | ⟨v, vs⟩
  · simp at h
  · simp only [List.map_cons, List.cons.injEq] at h
    have ha : (f a).2 = Either.right v := h.1
    simp [TaskEither.traverseSeqGo, ha, ih vs (i + 1) h.2, Either.map]

/-- C4: the sequential traversal `traverseSeqArray` (and
`sequenceSeqArray`, its identity instance) starts each element's
computation only after the previous one settles — the trace is the
elements' traces in index order — and on the first Failure it settles to
that Failure immediately: the computations for all later indices never
start (the result carries no part of them and does not depend on them);
when every element succeeds, all run in order and the result is Success
of the values in input order. -/
theorem taskEither_traverseSeqArray_bails :
  (∀ (E A B : Type) (f : A → TaskEither E B) (xs : List A) (y : A)
      (zs : List A) (e : E),
    (∀ x ∈ xs, ((f x).2).isRight = true) →
    (f y).2 = Either.left e →
    TaskEither.traverseSeqArray f (xs ++ y :: zs)
      = ((xs.map fun x => (f x).1).flatten ++ (f y).1, Either.left e))
  ∧ (∀ (E A B : Type) (f : A → TaskEither E B) (arr : List A) (vals : List B),
    arr.map (fun a => (f a).2) = vals.map Either.right →
    TaskEither.traverseSeqArray f arr
      = ((arr.map fun a => (f a).1).flatten, Either.right vals)) := by
constructor
· intro E A B f xs y zs e hxs hy
  exact traverseSeqGo_bail f y zs e hy xs 0 hxs
· intro E A B f arr vals h
  exact traverseSeqGo_all_right f arr vals 0 h

/-- A closed instance of C4's theorem: with a first element settling
Success and a second settling Failure, the sequential traversal settles
to that Failure, its trace holds only the first two elements' events, and
the third element's computation never starts. -/
theorem taskEither_traverseSeqArray_bails_witness :
  TaskEither.traverseSeqArray (fun t => t)
    [(([0] : List Nat), Either.right (1 : Nat)), ([1], Either.left (5 : Nat)),
      ([2], Either.left 6)] = ([0, 1], Either.left 5) :=
taskEither_traverseSeqArray_bails.1 Nat (TaskEither Nat Nat) Nat (fun t => t)
  [([0], Either.right 1)] ([1], Either.left 5) [([2], Either.left 6)] 5
  (by decide) rfl

/-- The host `<` on numbers is asymmetric: `x < y` and `y < x` never both
hold. -/
theorem jsNumber_lt_asymm :
  ∀ x y : JSNumber, JSNumber.lt x y = true → JSNumber.lt y x = false := by
intro x y h
cases x with
| nan => simp [JSNumber.lt] at h
| neginf =>
  cases y with
  | nan => simp [JSNumber.lt] at h
  | neginf => simp [JSNumber.lt] at h
  | posinf => rfl
  | fin q => rfl
| posinf =>
  cases y with
  | nan => simp [JSNumber.lt] at h
  | neginf => simp [JSNumber.lt] at h
  | posinf => simp [JSNumber.lt] at h
  | fin q => simp [JSNumber.lt] at h
| fin q =>
  cases y with
  | nan => simp [JSNumber.lt] at h
  | neginf => simp [JSNumber.lt] at h
  | posinf => rfl
  | fin q' =>
    simp only [JSNumber.lt, decide_eq_true_eq] at h
    simpa [JSNumber.lt] using lt_asymm h

/-- C10 counterexample: the claimed coherence fails at NaN —
`Ord.compare(NaN, NaN)` is 0 (NaN is neither `<` nor `>` any number) while
`Eq.equals(NaN, NaN)` is false (strict equality on NaN), so
`compare(x, y) = 0` does not hold exactly when `equals(x, y)` does. -/
theorem number_ord_eq_nan_incoherent :
  number.Ord.compare JSNumber.nan JSNumber.nan = 0
  ∧ number.Eq.equals JSNumber.nan JSNumber.nan = false :=
⟨rfl, rfl⟩

/-- C10 amended: the number module's `Ord.compare(x, y)` returns -1 when
`x < y`, 1 when `x > y` and 0 otherwise for every pair of numbers, and
`compare(x, y) = 0` holds exactly when `Eq.equals(x, y)` (strict
equality) holds for every pair of non-NaN numbers; at NaN the equivalence
fails, since `compare(NaN, NaN) = 0` but `NaN === NaN` is false. -/
theorem number_ord_eq_coherent_amended :
  (∀ x y : JSNumber, JSNumber.lt x y = true → number.Ord.compare x y = -1)
  ∧ (∀ x y : JSNumber, JSNumber.gt x y = true → number.Ord.compare x y = 1)
  ∧ (∀ x y : JSNumber, JSNumber.lt x y = false → JSNumber.gt x y = false →
      number.Ord.compare x y = 0)
  ∧ (∀ x y : JSNumber, x ≠ JSNumber.nan → y ≠ JSNumber.nan →
      (number.Ord.compare x y = 0 ↔ number.Eq.equals x y = true)) := by
refine ⟨?_, ?_, ?_, ?_⟩
· intro x y h
  simp [number.Ord, h]
· intro x y h
  have hyx : JSNumber.lt y x = true := by simpa [JSNumber.gt] using h
  have h' : JSNumber.lt x y = false := jsNumber_lt_asymm y x hyx
  simp [number.Ord, JSNumber.gt, h', hyx]
· intro x y h h'
  have h'' : JSNumber.lt y x = false := by simpa [JSNumber.gt] using h'
  simp [number.Ord, JSNumber.gt, h, h'']
· intro x y hx hy
  cases x with
  | nan => exact absurd rfl hx
  | neginf =>
    cases y with
    | nan => exact absurd rfl hy
    | neginf => simp [number.Ord, number.Eq, JSNumber.lt, JSNumber.gt, JSNumber.stricteq]
    | posinf => simp [number.Ord, number.Eq, JSNumber.lt, JSNumber.gt, JSNumber.stricteq]
    | fin q => simp [number.Ord, number.Eq, JSNumber.lt, JSNumber.gt, JSNumber.stricteq]
  | posinf =>
    cases y with
    | nan => exact absurd rfl hy
    | neginf => simp [number.Ord, number.Eq, JSNumber.lt, JSNumber.gt, JSNumber.stricteq]
    | posinf => simp [number.Ord, number.Eq, JSNumber.lt, JSNumber.gt, JSNumber.stricteq]
    | fin q => simp [number.Ord, number.Eq, JSNumber.lt, JSNumber.gt, JSNumber.stricteq]
  | fin q =>
    cases y with
    | nan => exact absurd rfl hy
    | neginf => simp [number.Ord, number.Eq, JSNumber.lt, JSNumber.gt, JSNumber.stricteq]
    | posinf => simp [number.Ord, number.Eq, JSNumber.lt, JSNumber.gt, JSNumber.stricteq]
    | fin q' =>
      simp only [number.Ord, number.Eq, JSNumber.lt, JSNumber.gt, JSNumber.stricteq,
        decide_eq_true_eq]
      rcases lt_trichotomy q q' with h | h | h
      · simp [h, h.ne]
      · simp [h, lt_irrefl]
      · simp [h, lt_asymm h, h.ne']

/-- A closed instance of C10's amended theorem at concrete finite
numbers: `compare(1, 2) = -1`, `compare(2, 1) = 1`, `compare(1, 1) = 0`,
and `compare(1, 1) = 0` agrees with `equals(1, 1)`. -/
theorem number_ord_eq_coherent_amended_witness :
  number.Ord.compare (JSNumber.fin 1) (JSNumber.fin 2) = -1
  ∧ number.Ord.compare (JSNumber.fin 2) (JSNumber.fin 1) = 1
  ∧ number.Ord.compare (JSNumber.fin 1) (JSNumber.fin 1) = 0
  ∧ (number.Ord.compare (JSNumber.fin 1) (JSNumber.fin 1) = 0
      ↔ number.Eq.equals (JSNumber.fin 1) (JSNumber.fin 1) = true) :=
⟨number_ord_eq_coherent_amended.1 (JSNumber.fin 1) (JSNumber.fin 2) (by decide),
  number_ord_eq_coherent_amended.2.1 (JSNumber.fin 2) (JSNumber.fin 1) (by decide),
  number_ord_eq_coherent_amended.2.2.1 (JSNumber.fin 1) (JSNumber.fin 1)
    (by decide) (by decide),
  number_ord_eq_coherent_amended.2.2.2 (JSNumber.fin 1) (JSNumber.fin 1)
    (by decide) (by decide)⟩

/-- C7: every `TaskEither` value produced by the module's own
constructors and combinators settles — its future delivers a `some`
outcome, all failure carried as the `Failure` variant — given the spec's
precondition that user-supplied callbacks do not themselves throw (they
are total functions in the model); the wrapped external call of
`tryCatch` is the one admitted rejection source, and `tryCatch` converts
that rejection into the `Failure` variant rather than letting it escape. -/
theorem taskEither_always_settles :
  ∀ (E A : Type) (x : TEExpr E A), (TEExpr.settle x).isSome = true := by
intro E A x
induction x with
| left e => rfl
| right a => rfl
| fromEither ea => rfl
| fromOption onNone ma => cases ma <;> rfl
| fromPredicate p onFalse a => rfl
| map f ma ih =>
  rcases h : TEExpr.settle ma with _ | ea
  · rw [h] at ih; simp at ih
  · cases ea <;> simp [TEExpr.settle, h]
| mapLeft f ma ih =>
  rcases h : TEExpr.settle ma with _ | ea
  · rw [h] at ih; simp at ih
  · cases ea <;> simp [TEExpr.settle, h]
| bimap f g ma ih =>
  rcases h : TEExpr.settle ma with _ | ea
  · rw [h] at ih; simp at ih
  · cases ea <;> simp [TEExpr.settle, h]
| chain f ma ihf ihma =>
  rcases h : TEExpr.settle ma with _ | ea
  · rw [h] at ihma; simp at ihma
  · rcases ea with e | a
    · simp [TEExpr.settle, h]
    · simpa [TEExpr.settle, h] using ihf a
| ap fa fab ihfa ihfab =>
  rcases hab : TEExpr.settle fab with _ | gab
  · rw [hab] at ihfab; simp at ihfab
  · rcases ha : TEExpr.settle fa with _ | ga
    · rw [ha] at ihfa; simp at ihfa
    · simp [TEExpr.settle, hab, ha]
| alt second first ihsecond ihfirst =>
  rcases h : TEExpr.settle first with _ | ea
  · rw [h] at ihfirst; simp at ihfirst
  · rcases ea with e | a
    · simpa [TEExpr.settle, h] using ihsecond ()
    · simp [TEExpr.settle, h]
| orElse onLeft ma ihonLeft ihma =>
  rcases h : TEExpr.settle ma with _ | ea
  · rw [h] at ihma; simp at ihma
  · rcases ea with e | a
    · simpa [TEExpr.settle, h] using ihonLeft e
    · simp [TEExpr.settle, h]
| bracket acquire use release ihacq ihuse ihrel =>
  rcases hacq : TEExpr.settle acquire with _ | ea
  · rw [hacq] at ihacq; simp at ihacq
  · rcases ea with e | a
    · simp [TEExpr.settle, hacq]
    · rcases huse : TEExpr.settle (use a) with _ | eu
      · have := ihuse a; rw [huse] at this; simp at this
      · rcases hrel : TEExpr.settle (release a eu) with _ | er
        · have := ihrel a eu; rw [hrel] at this; simp at this
        · cases er <;> simp [TEExpr.settle, hacq, huse, hrel]
| tryCatch thunk onRejected =>
  simp only [TEExpr.settle]
  cases thunk () <;> rfl

end FpTs
